import Mathlib

/-!
Verification development for the flash-hazard analyzer
(`pkg/agent/tasks/lib/flashdetector.py` and
`pkg/agent/tasks/lib/flashdetection/`).

The Python source is embedded shallowly:
* machine floats become exact rationals (`ℚ`); the viewport geometry,
  which uses `tan`/`sqrt`/`pi`, is modelled over `ℝ`;
* NumPy arrays become Lean lists or index functions;
* Python `set`s of FSM states (keyed by `(name, idx)` via `__hash__`/`__eq__`)
  become lists without duplicate keys, with the source's first-match-or-append
  insertion behaviour reproduced verbatim.
-/

set_option allowUnsafeReducibility true in
attribute [semireducible] Rat.add Rat.sub Rat.mul Rat.inv Nat.gcd

set_option maxHeartbeats 1600000

set_option maxRecDepth 8000

/-! ## red_transition_fsm.py -/

/-- Constant `ChromaticityChecker.MAX_CHROMATICITY_DIFF = 0.2`. -/
def MAX_CHROMATICITY_DIFF : ℚ := 1/5

/-- Constant `Region.MAX_RED_PERCENTAGE = 0.8`. -/
def MAX_RED_PERCENTAGE : ℚ := 4/5

/-- `ChromaticityChecker.is_above_threshold`: the source asks whether the
Euclidean norm of `coordinate - other_coord` is `≥ 0.2` for any stored
coordinate; we compare squared distances, which is equivalent for
nonnegative quantities and keeps the arithmetic rational. -/
def is_above_threshold (coordinates : List (ℚ × ℚ)) (other_coord : ℚ × ℚ) : Bool :=
  coordinates.any fun p =>
    decide (MAX_CHROMATICITY_DIFF ^ 2 ≤ (p.1 - other_coord.1) ^ 2 + (p.2 - other_coord.2) ^ 2)

/-- Names of the five FSM states (`State.name`). -/
inductive StateName
  | A | B | C | D | E
deriving DecidableEq, Repr

/-- `State`: a state name, the window index at which the possible flash
begins (`State.idx`, a nonnegative Python int), and the pushed
chromaticity coordinates (`State.chromaticity_checker.coordinates`). -/
structure RState where
  name : StateName
  idx : ℕ
  checker : List (ℚ × ℚ)
deriving DecidableEq, Repr

/-- Python `State.__eq__`: identity is `(name, idx)`; checkers are ignored. -/
def state_key_eq (s t : RState) : Bool :=
  decide (s.name = t.name) && decide (s.idx = t.idx)

/-- `ChromaticityChecker.push` on the checker of a state. -/
def push_checker (s : RState) (c : ℚ × ℚ) : RState :=
  { s with checker := s.checker ++ [c] }

/-- `Region.should_transition`. -/
def should_transition (state : RState) (chromaticity : ℚ × ℚ) (red_percentage : ℚ)
    (should_check_red_percentage : Bool) : Bool :=
  if should_check_red_percentage && decide (red_percentage < MAX_RED_PERCENTAGE) then
    false
  else
    is_above_threshold state.checker chromaticity

/-- `Region.update_or_add_state`: push the chromaticity onto the first
state with the same `(name, idx)` key, or append the new state. -/
def update_or_add_state (state : RState) (state_set : List RState) (chromaticity : ℚ × ℚ) :
    List RState :=
  match state_set with
  | [] => [state]
  | t :: rest =>
    if state_key_eq t state then push_checker t chromaticity :: rest
    else t :: update_or_add_state state rest chromaticity

/-- Python `set.add`: a no-op when an element with the same key is present. -/
def set_add (state : RState) (state_set : List RState) : List RState :=
  if state_set.any (state_key_eq state) then state_set else state_set ++ [state]

/-- `Region.add_start_state`. -/
def add_start_state (chromaticity : ℚ × ℚ) (red_percentage : ℚ) (idx : ℕ)
    (state_set : List RState) : List RState :=
  if MAX_RED_PERCENTAGE ≤ red_percentage then
    set_add ⟨.B, idx, [chromaticity]⟩ state_set
  else
    set_add ⟨.A, idx, [chromaticity]⟩ state_set

/-- Body of the `for state in self.states` loop of `Region.state_machine`:
the current sample is pushed onto the state's checker, then each eligible
outgoing transition adds its successor (which inherits `state.idx`) to the
accumulating `changed_state_set`.  The state itself is never added. -/
def machine_step (acc : List RState) (state : RState) (chromaticity : ℚ × ℚ)
    (red_percentage : ℚ) : List RState :=
  let st := push_checker state chromaticity
  match state.name with
  | .A =>
    let acc1 :=
      if should_transition st chromaticity red_percentage true then
        update_or_add_state ⟨.C, state.idx, [chromaticity]⟩ acc chromaticity
      else acc
    if should_transition st chromaticity red_percentage false then
      update_or_add_state ⟨.D, state.idx, [chromaticity]⟩ acc1 chromaticity
    else acc1
  | .B =>
    if should_transition st chromaticity red_percentage false then
      update_or_add_state ⟨.C, state.idx, [chromaticity]⟩ acc chromaticity
    else acc
  | .C =>
    if should_transition st chromaticity red_percentage false then
      update_or_add_state ⟨.E, state.idx, [chromaticity]⟩ acc chromaticity
    else acc
  | .D =>
    if should_transition st chromaticity red_percentage true then
      update_or_add_state ⟨.E, state.idx, [chromaticity]⟩ acc chromaticity
    else acc
  | .E => acc

/-- `Region.state_machine`: fold the loop body over the current state set
starting from an empty `changed_state_set`, then add the new start state
rooted at the buffer's current index, and replace the region's states. -/
def state_machine (states : List RState) (chromaticity : ℚ × ℚ) (red_percentage : ℚ)
    (buffer_idx : ℕ) : List RState :=
  add_start_state chromaticity red_percentage buffer_idx
    (states.foldl (fun acc st => machine_step acc st chromaticity red_percentage) [])

/-- `Region.flash_idx`: the `idx` of the first state named `E`, or `-1`. -/
def flash_idx (states : List RState) : ℤ :=
  match states.find? (fun s => decide (s.name = .E)) with
  | some s => (s.idx : ℤ)
  | none => -1

/-- `Buffer`: current index, window capacity (`num_frames`), grid size `n`,
frame rate, the `n × n` grid of region state sets, and the accumulated
red-flash timestamps. -/
structure RBuffer where
  idx : ℕ
  num_frames : ℕ
  n : ℕ
  frame_rate : ℚ
  regions : List (List (List RState))
  red_flash_timestamps : List (ℚ × ℚ)
deriving DecidableEq, Repr

/-- State set of the region at grid position `(i, j)`. -/
def region_states_at (b : RBuffer) (i j : ℕ) : List RState :=
  (b.regions.getD i []).getD j []

/-- Sample `frame[i][j] = (u, v, red_percentage)`. -/
def sample_at (frame : List (List (ℚ × ℚ × ℚ))) (i j : ℕ) : ℚ × ℚ × ℚ :=
  (frame.getD i []).getD j (0, 0, 0)

/-- The state set of region `(i, j)` right after its FSM step for `frame`
(before the end-of-`add_frame` eviction). -/
def step_states (b : RBuffer) (frame : List (List (ℚ × ℚ × ℚ))) (i j : ℕ) : List RState :=
  let s := sample_at frame i j
  state_machine (region_states_at b i j) (s.1, s.2.1) s.2.2 b.idx

/-- `Buffer.remove_frame`: drop every state with `idx = out` from every region. -/
def remove_frame (regions : List (List (List RState))) (out : ℤ) :
    List (List (List RState)) :=
  regions.map (fun row => row.map (fun states => states.filter (fun s => (s.idx : ℤ) != out)))

/-- `Buffer.add_frame`: run each region's FSM on its sample, append a
timestamp `(i / frame_rate, j / frame_rate)` for each region whose
`flash_idx` is not `-1`, increment `idx`, and when `idx - num_frames ≥ 0`
remove the states with that origin index. -/
def add_frame (b : RBuffer) (frame : List (List (ℚ × ℚ × ℚ))) : RBuffer :=
  let new_regions :=
    (List.range b.n).map (fun i => (List.range b.n).map (fun j => step_states b frame i j))
  let new_ts := b.red_flash_timestamps ++
    (List.range b.n).flatMap (fun i =>
      (List.range b.n).flatMap (fun j =>
        if flash_idx (step_states b frame i j) ≠ -1 then
          [((i : ℚ) / b.frame_rate, (j : ℚ) / b.frame_rate)]
        else []))
  let idx' := b.idx + 1
  let out : ℤ := (idx' : ℤ) - (b.num_frames : ℤ)
  { b with
    idx := idx'
    regions := if 0 ≤ out then remove_frame new_regions out else new_regions
    red_flash_timestamps := new_ts }

/-! ## danger_detection.py

`process_dangerous` receives the window `dangerous` of HLS frames; only the
L channel is read, so a frame is embedded as its `height × width` array of
L values (rationals).  The grid tile side `square_length` is computed in the
source from `region_shape.calc_viewport` (irrational float arithmetic, see
the `ℝ` model below), so `sections = max(height // square_length, width //
square_length)` enters the embedding as a parameter; `sections ≥ 1` holds
for every nonempty frame because `square_length ≤ max(height, width)`.
NumPy's `np.max` faults on an empty array (`sections = 0`), which the
embedding replaces by a fold from `0`; theorems therefore carry a
`1 ≤ sections` hypothesis. -/

/-- `calculate_average_luminance`: mean of the values of a 2-D segment
(`np.mean` of the L channel). -/
def calculate_average_luminance (segment : List (List ℚ)) : ℚ :=
  ((segment.map (fun row => row.foldl (· + ·) 0)).foldl (· + ·) 0) /
    (((segment.map List.length).foldl (· + ·) 0 : ℕ) : ℚ)

/-- The slice `frame[y1:y2, x1:x2]`. -/
def segment_slice (frame : List (List ℚ)) (y1 y2 x1 x2 : ℕ) : List (List ℚ) :=
  ((frame.drop y1).take (y2 - y1)).map (fun row => (row.drop x1).take (x2 - x1))

/-- Pass 1 of `process_dangerous`: `luminances[frame_idx, row, col]` is the
tile-mean L value of tile `(row, col)` of frame `frame_idx`. -/
def luminances (frames : List (List (List ℚ))) (segment_height segment_width : ℕ)
    (frame_idx row col : ℕ) : ℚ :=
  calculate_average_luminance
    (segment_slice (frames.getD frame_idx []) (row * segment_height)
      ((row + 1) * segment_height) (col * segment_width) ((col + 1) * segment_width))

/-- The transition test of pass 2: tile-mean L difference above `0.5 * 255`
with at least one endpoint below `0.8 * 255`. -/
def opposing_transition (lum : ℕ → ℕ → ℕ → ℚ) (frame_idx future_frame row col : ℕ) : Bool :=
  decide ((1/2 : ℚ) * 255 < |lum frame_idx row col - lum future_frame row col|) &&
    (decide (lum frame_idx row col < (4/5 : ℚ) * 255) ||
      decide (lum future_frame row col < (4/5 : ℚ) * 255))

/-- Increment `num_flashes[row, col]`. -/
def bump_flashes (counts : ℕ → ℕ → ℚ) (row col : ℕ) : ℕ → ℕ → ℚ :=
  fun r c => if r = row ∧ c = col then counts r c + 1 else counts r c

/-- `np.max(num_flashes)` over the `sections × sections` grid, folding from
`0` (the source faults when `sections = 0`; counts are nonnegative so the
`0` seed is neutral otherwise). -/
def max_flashes (counts : ℕ → ℕ → ℚ) (sections : ℕ) : ℚ :=
  ((List.range sections).flatMap
    (fun r => (List.range sections).map (fun c => counts r c))).foldl max 0

/-- The iteration order of pass 2's four nested `for` loops:
`(frame_idx, future_frame, row, col)` tuples, `future_frame` ranging over
`frame_idx + 1 .. num_frames - 1`.  Reassigning the loop variables inside
the Python body does not influence this order. -/
def pass2_tuples (num_frames sections : ℕ) : List (ℕ × ℕ × ℕ × ℕ) :=
  (List.range num_frames).flatMap fun frame_idx =>
    ((List.range num_frames).filter (fun j => decide (frame_idx < j))).flatMap fun future_frame =>
      (List.range sections).flatMap fun row =>
        (List.range sections).map fun col => (frame_idx, future_frame, row, col)

/-- Pass 2 of `process_dangerous`.  On a counted transition the source
executes `frame_idx = future_frame; future_frame = frame_idx + 1; row = 0;
col = 0`, but in Python reassigning a `for` loop variable has no effect on
the iteration, so the scan simply continues with the next tuple — except
that when `future_frame = num_frames - 1` the function returns
`np.max(num_flashes)` immediately. -/
def pass2_scan (lum : ℕ → ℕ → ℕ → ℚ) (num_frames sections : ℕ) :
    List (ℕ × ℕ × ℕ × ℕ) → (ℕ → ℕ → ℚ) → ℚ
  | [], counts => max_flashes counts sections
  | (i, j, r, c) :: rest, counts =>
    if opposing_transition lum i j r c then
      if j < num_frames - 1 then pass2_scan lum num_frames sections rest (bump_flashes counts r c)
      else max_flashes (bump_flashes counts r c) sections
    else pass2_scan lum num_frames sections rest counts

/-- `process_dangerous(dangerous, frame_rate)` with the frame window given
as a list of L-value arrays of shape `height × width` and the grid size
`sections` as a parameter (see the section comment).  `frame_rate` is

unused by the source function body and is omitted. -/
def process_dangerous (frames : List (List (List ℚ))) (height width sections : ℕ) : ℚ :=
  let segment_height := height / sections
  let segment_width := width / sections
  pass2_scan (luminances frames segment_height segment_width) frames.length sections
    (pass2_tuples frames.length sections) (fun _ _ => 0)

/-- First tile `(row, col)` of the row-major tile scan at the frame pair
`(frame_idx, future_frame)` showing an opposing transition, if any. -/
def first_tile_hit (lum : ℕ → ℕ → ℕ → ℚ) (frame_idx future_frame sections : ℕ) :
    Option (ℕ × ℕ) :=
  ((List.range sections).flatMap
      (fun r => (List.range sections).map (fun c => (r, c)))).find?
    (fun rc => opposing_transition lum frame_idx future_frame rc.1 rc.2)

/-- Modelled from the spec: §4.5 pass 2 *with* the prescribed skip-ahead —
on a counted transition at the frame pair `(i, j)`, "advance `i` to `j`,
reset `j` to `i+1`, and restart the tile scan".  The pair is encoded as
`(i, i + 1 + d)` so that `i < j` is structural.  This is the behaviour the
spec declares part of the contract; the source does not implement it. -/
def spec_skip_scan (lum : ℕ → ℕ → ℕ → ℚ) (num_frames sections : ℕ)
    (counts : ℕ → ℕ → ℚ) (i d : ℕ) : ℚ :=
  let j := i + 1 + d
  if h : num_frames ≤ j then
    if num_frames ≤ i + 1 then max_flashes counts sections
    else spec_skip_scan lum num_frames sections counts (i + 1) 0
  else
    match first_tile_hit lum i j sections with
    | some rc => spec_skip_scan lum num_frames sections (bump_flashes counts rc.1 rc.2) j 0
    | none => spec_skip_scan lum num_frames sections counts i (d + 1)
termination_by (num_frames - i, num_frames - d)
decreasing_by
  all_goals omega

/-- Modelled from the spec: the luminance analyzer of §4.5 with the
skip-ahead discipline, over the same pass-1 tile means as the source. -/
def spec_skip_count (frames : List (List (List ℚ))) (height width sections : ℕ) : ℚ :=
  let segment_height := height / sections
  let segment_width := width / sections
  spec_skip_scan (luminances frames segment_height segment_width) frames.length sections
    (fun _ _ => 0) 0 0

/-! ## flashdetector.py — the orchestrator `detect_flashes`

Frame decoding (`cv2.VideoCapture`/`cvtColor`) and the NumPy colour
pipeline are external library code; the per-iteration result of
`process_dangerous` on the current window is therefore supplied as an
oracle `flashes : ℕ → ℚ` indexed by `frame_counter`, and the input video
by its frame count.  All control flow, the danger-interval bookkeeping,
the deque-length discipline, and the timestamp merge follow the source. -/

/-- Source line `skip_enabled = 1` (hard-coded). -/
def skip_enabled : ℕ := 1

/-- Source line `hertz = 3`. -/
def hertz : ℚ := 3

/-- `frames_per_second = int(frame_rate * speed)`: Python `int()` truncates
toward zero; both factors are nonnegative wherever this is used, so it is
the floor. -/
def frames_per_second (frame_rate : ℕ) (speed : ℚ) : ℕ :=
  (⌊(frame_rate : ℚ) * speed⌋).toNat

/-- Loop state of `detect_flashes`: the length of the HLS `frame_buffer`
deque, `start_danger`, and the accumulated `timestamps`. -/
structure OrchState where
  buffer_len : ℕ
  start_danger : ℤ
  timestamps : List (ℚ × ℚ)
deriving DecidableEq, Repr

/-- One iteration of the `while cap.isOpened()` loop at `frame_counter = k`:
append to the deque (capacity `window`), and when the deque is full run the
luminance analyzer (`flashes k`), open/close the danger interval, emit
`[(skip_enabled * 2) + start_danger / frame_rate, frame_counter /
frame_rate]` on close, and clear or pop the deque. -/
def detect_flashes_step (frame_rate window : ℕ) (flashes : ℕ → ℚ) (s : OrchState)
    (k : ℕ) : OrchState :=
  let bl := min (s.buffer_len + 1) window
  if bl = window then
    let f := flashes k
    let sd1 := if hertz ≤ f ∧ s.start_danger = -1 then (k : ℤ) else s.start_danger
    let closing := f < hertz ∧ 0 ≤ sd1
    let ts2 :=
      if closing then
        s.timestamps ++
          [((skip_enabled : ℚ) * 2 + (sd1 : ℚ) / (frame_rate : ℚ), (k : ℚ) / (frame_rate : ℚ))]
      else s.timestamps
    let sd2 := if closing then -1 else sd1
    let bl2 := if skip_enabled ≠ 0 ∧ f = 0 then 0 else bl - 1
    ⟨bl2, sd2, ts2⟩
  else
    ⟨bl, s.start_danger, s.timestamps⟩

/-- The post-stream timestamp merge: while consecutive entries have
`abs(stamp[1] - next[0]) < 3`, fuse them into `[stamp[0], next[1]]`,
otherwise advance.  (The source's `timestamps.remove(next)` removes the
first list element equal to `next`; on the lists this loop ever sees —
strictly ordered starts — that element is `next` itself.) -/
def merge_timestamps : List (ℚ × ℚ) → List (ℚ × ℚ)
  | [] => []
  | [a] => [a]
  | a :: b :: rest =>
    if |a.2 - b.1| < 3 then merge_timestamps ((a.1, b.2) :: rest)
    else a :: merge_timestamps (b :: rest)
termination_by l => l.length

/-- `detect_flashes(video_path, speed)`: validate `speed` before touching
any frame, run the loop over the `num_input_frames` decoded frames, and
return the merged timestamp list. -/
def detect_flashes (frame_rate : ℕ) (speed : ℚ) (flashes : ℕ → ℚ)
    (num_input_frames : ℕ) : Except String (List (ℚ × ℚ)) :=
  if 5 < speed ∨ speed < 1/5 then
    Except.error "speed must not exceed 5x and must be positive"
  else
    let window := frames_per_second frame_rate speed
    let final := (List.range num_input_frames).foldl
      (detect_flashes_step frame_rate window flashes) ⟨0, -1, []⟩
    Except.ok (merge_timestamps final.timestamps)

/-! ## region_shape.py — `calc_viewport`

Pure float geometry (`tan`, `sqrt`, `pi`, `ceil`), modelled over `ℝ`.
`screen_resolution` is the integer pair `(height, width)`;
`aspect_ratio = screen_resolution // gcd` is NumPy integer floor division
(exact, since the gcd divides both components). -/

/-- Radius of the conic base: `view_distance * tan(viewport_angle * π / 180)`. -/
noncomputable def viewport_radius (view_distance viewport_angle : ℝ) : ℝ :=
  view_distance * Real.tan (viewport_angle * Real.pi / 180)

/-- Third return value of `calc_viewport`: the side length in pixels of the
square viewport, `int(np.ceil(sqrt(2) * radius * ppcm))`. -/
noncomputable def calc_viewport_square_px (res_h res_w : ℕ)
    (screen_size view_distance viewport_angle : ℝ) : ℤ :=
  let g := Nat.gcd res_h res_w
  let aspect_h : ℝ := (res_h / g : ℕ)
  let aspect_w : ℝ := (res_w / g : ℕ)
  let hypotenuse := Real.sqrt (aspect_h ^ 2 + aspect_w ^ 2)
  let screen_dim_h := aspect_h / hypotenuse * screen_size
  let ppcm := (res_h : ℝ) / screen_dim_h
  let square_side_length := Real.sqrt 2 * viewport_radius view_distance viewport_angle
  ⌈square_side_length * ppcm⌉

/-! ## Concrete inputs used in counterexamples and witnesses -/

/-- A window of four `1 × 1` frames with L values `0, 255, 255, 0`. -/
def pair_skip_frames : List (List (List ℚ)) := [[[0]], [[255]], [[255]], [[0]]]

/-- Luminance-analyzer oracle for a 31-frame run at 30 fps, speed 1:
the first full window (at `frame_counter = 29`) reports `3` flashes,
the next window reports `0`. -/
def burst_oracle : ℕ → ℚ := fun k => if k = 29 then 3 else 0

/-- A fresh red-FSM buffer with window capacity 2, one region, frame rate 1. -/
def two_frame_buffer : RBuffer := ⟨0, 2, 1, 1, [[[]]], []⟩

/-- First admitted chromaticity frame: sample `(0, 0)`, no red. -/
def frame_far_a : List (List (ℚ × ℚ × ℚ)) := [[(0, 0, 0)]]

/-- Second admitted chromaticity frame: sample `(1, 1)`, saturated red. -/
def frame_far_b : List (List (ℚ × ℚ × ℚ)) := [[(1, 1, 1)]]

/-- Invariant of the `detect_flashes` loop after processing frames
`0 .. k-1`: the raw timestamps are strictly ordered (each start lies
beyond the previous end), every end is a close-frame counter below `k`
divided by the frame rate, and an open danger interval bounds all
recorded ends below its eventual start `2 + start_danger / frame_rate`. -/
def orch_inv (frame_rate k : ℕ) (s : OrchState) : Prop :=
  s.timestamps.Chain' (fun a b => a.2 < b.1) ∧
    (∀ t ∈ s.timestamps, ∃ c : ℕ, c < k ∧ t.2 = (c : ℚ) / (frame_rate : ℚ)) ∧
    (s.start_danger = -1 ∨ ∃ m : ℕ, s.start_danger = (m : ℤ) ∧
      ∀ t ∈ s.timestamps, t.2 < 2 + (m : ℚ) / (frame_rate : ℚ))

/-! ## Theorems -/

/-- C1: the spec states that a state for which no outgoing transition
condition fires remains in the region's state set (with the sample pushed
onto its checker).  The code contradicts its own docstring (`A (default)`,
"We can stay in the same state"): `state_machine` rebuilds the set from
transition successors only, so a non-transitioning state is dropped.  At
the failing input — one state `A` (origin 0, checker `[(0,0)]`) receiving
the unchanged sample `(0,0)` with no red, at buffer index 1 — the result
contains only the fresh start state; nothing with origin 0 survives. -/
theorem state_machine_drops_nontransitioning_state :
    state_machine [⟨.A, 0, [(0, 0)]⟩] (0, 0) 0 1 = [⟨.A, 1, [(0, 0)]⟩] ∧
      ∀ s ∈ state_machine [⟨.A, 0, [(0, 0)]⟩] (0, 0) 0 1, s.idx ≠ 0 := by
  exact ⟨by decide, by decide⟩

lemma foldl_max_of_le {l : List ℚ} {a : ℚ} (h : ∀ x ∈ l, x ≤ a) : l.foldl max a = a := by
  induction l generalizing a with
  | nil => rfl
  | cons x xs ih =>
    have hx : max a x = a := max_eq_left (h x (List.mem_cons_self x xs))
    simp only [List.foldl_cons, hx]
    exact ih fun y hy => h y (List.mem_cons_of_mem x hy)

lemma max_flashes_zero (s : ℕ) : max_flashes (fun _ _ => 0) s = 0 := by
  unfold max_flashes
  apply foldl_max_of_le
  intro x hx
  simp only [List.mem_flatMap, List.mem_map] at hx
  obtain ⟨r, -, c, -, rfl⟩ := hx
  exact le_refl 0

lemma pass2_scan_of_no_transition (lum : ℕ → ℕ → ℕ → ℚ) (nF s : ℕ) :
    ∀ (L : List (ℕ × ℕ × ℕ × ℕ)) (counts : ℕ → ℕ → ℚ),
      (∀ t ∈ L, opposing_transition lum t.1 t.2.1 t.2.2.1 t.2.2.2 = false) →
      pass2_scan lum nF s L counts = max_flashes counts s := by
  intro L
  induction L with
  | nil => intro counts _; rfl
  | cons t rest ih =>
    intro counts h
    obtain ⟨i, j, r, c⟩ := t
    have ht := h _ (List.mem_cons_self _ rest)
    simp only [pass2_scan, ht, Bool.false_eq_true, if_false]
    exact ih counts fun u hu => h u (List.mem_cons_of_mem _ hu)

lemma mem_pass2_tuples {nF s : ℕ} {t : ℕ × ℕ × ℕ × ℕ} (ht : t ∈ pass2_tuples nF s) :
    t.1 < nF ∧ t.2.1 < nF := by
  unfold pass2_tuples at ht
  simp only [List.mem_flatMap, List.mem_map, List.mem_filter, List.mem_range,
    decide_eq_true_eq] at ht
  obtain ⟨i, hi, j, ⟨hj, -⟩, r, -, c, -, rfl⟩ := ht
  exact ⟨hi, hj⟩

/-- C7: on a window consisting of `n ≥ 1` copies of one frame the
luminance analyzer reports `0`: every pair of frames has identical
tile means, so no opposing transition is ever counted.  (`sections ≥ 1`
reflects the source's `np.max`, which requires a nonempty grid.) -/
theorem process_dangerous_identical_frames (F : List (List ℚ)) (n height width sections : ℕ)
    (hn : 1 ≤ n) (hs : 1 ≤ sections) :
    process_dangerous (List.replicate n F) height width sections = 0 := by
  unfold process_dangerous
  rw [pass2_scan_of_no_transition, max_flashes_zero]
  intro t ht
  rw [List.length_replicate] at ht
  obtain ⟨h1, h2⟩ := mem_pass2_tuples ht
  unfold opposing_transition
  have hsame : ∀ k < n, ∀ row col,
      luminances (List.replicate n F) (height / sections) (width / sections) k row col =
        luminances (List.replicate n F) (height / sections) (width / sections) 0 row col := by
    intro k hk row col
    unfold luminances
    have hrep : ∀ m < n, (List.replicate n F).getD m [] = F := by
      intro m hm
      simp [List.getD, List.getElem?_replicate, hm]
    rw [hrep k hk, hrep 0 (lt_of_lt_of_le Nat.zero_lt_one hn)]
  rw [hsame t.1 h1 t.2.2.1 t.2.2.2, hsame t.2.1 h2 t.2.2.1 t.2.2.2]
  simp

/-- Witness for C7 at a concrete input: two copies of a `1 × 1` frame. -/
theorem process_dangerous_identical_frames_witness :
    process_dangerous (List.replicate 2 [[0]]) 1 1 1 = 0 :=
  process_dangerous_identical_frames [[0]] 2 1 1 1 (by norm_num) (by norm_num)

/-- C2: the spec's skip-ahead discipline (advance `i` to `j`, reset `j`,
restart the tile scan) is the source's *intent* — the comment reads "skip
to next relevant frame" — but reassigning Python `for` loop variables does
not affect iteration, so `process_dangerous` keeps counting every
qualifying pair.  On the window with tile means `0, 255, 255, 0` the code
counts the pairs `(0,1), (0,2), (1,3)` and returns `3`, while the
skip-ahead discipline of the spec counts `(0,1), (1,3)` and returns `2`. -/
theorem process_dangerous_ignores_skip_ahead :
    process_dangerous pair_skip_frames 1 1 1 = 3 ∧
      spec_skip_count pair_skip_frames 1 1 1 = 2 := by
  constructor
  · decide
  · show spec_skip_scan (luminances pair_skip_frames 1 1) 4 1 (fun _ _ => 0) 0 0 = 2
    have h1 : first_tile_hit (luminances pair_skip_frames 1 1) 0 1 1 = some (0, 0) := by decide
    have h2 : first_tile_hit (luminances pair_skip_frames 1 1) 1 2 1 = none := by decide
    have h3 : first_tile_hit (luminances pair_skip_frames 1 1) 1 3 1 = some (0, 0) := by decide
    rw [spec_skip_scan]; norm_num [h1]
    rw [spec_skip_scan]; norm_num [h2]
    rw [spec_skip_scan]; norm_num [h3]
    rw [spec_skip_scan]; norm_num
    decide

lemma mem_update_or_add_state {st : RState} {c : ℚ × ℚ} :
    ∀ {l : List RState} {s : RState}, s ∈ update_or_add_state st l c →
      (s.name = st.name ∧ s.idx = st.idx) ∨ ∃ t ∈ l, s.name = t.name ∧ s.idx = t.idx := by
  intro l
  induction l with
  | nil =>
    intro s hs
    rw [update_or_add_state, List.mem_singleton] at hs
    exact Or.inl ⟨by rw [hs], by rw [hs]⟩
  | cons t rest ih =>
    intro s hs
    rw [update_or_add_state] at hs
    split at hs
    case isTrue h =>
      rcases List.mem_cons.1 hs with h1 | h1
      · exact Or.inr ⟨t, List.mem_cons_self t rest, by rw [h1]; exact ⟨rfl, rfl⟩⟩
      · exact Or.inr ⟨s, List.mem_cons_of_mem t h1, rfl, rfl⟩
    case isFalse h =>
      rcases List.mem_cons.1 hs with h1 | h1
      · exact Or.inr ⟨t, List.mem_cons_self t rest, by rw [h1]; exact ⟨rfl, rfl⟩⟩
      · rcases ih h1 with h2 | ⟨u, hu, h3⟩
        · exact Or.inl h2
        · exact Or.inr ⟨u, List.mem_cons_of_mem t hu, h3⟩

lemma mem_machine_step_name {acc : List RState} {st : RState} {c : ℚ × ℚ} {r : ℚ}
    (hacc : ∀ s ∈ acc, s.name = .C ∨ s.name = .D ∨ s.name = .E) :
    ∀ s ∈ machine_step acc st c r, s.name = .C ∨ s.name = .D ∨ s.name = .E := by
  intro s hs
  unfold machine_step at hs
  have of_upd : ∀ (nm : StateName) (l : List RState) (v : RState),
      (∀ u ∈ l, u.name = .C ∨ u.name = .D ∨ u.name = .E) →
      (nm = .C ∨ nm = .D ∨ nm = .E) →
      v ∈ update_or_add_state ⟨nm, st.idx, [c]⟩ l c →
      v.name = .C ∨ v.name = .D ∨ v.name = .E := by
    intro nm l v hl hnm hmem
    rcases mem_update_or_add_state hmem with ⟨h1, -⟩ | ⟨t, ht, h1, -⟩
    · rw [h1]; exact hnm
    · rw [h1]; exact hl t ht
  cases hname : st.name <;> rw [hname] at hs <;> simp only at hs
  case A =>
    have hacc1 : ∀ u ∈ (if should_transition (push_checker st c) c r true then
        update_or_add_state ⟨.C, st.idx, [c]⟩ acc c else acc),
        u.name = .C ∨ u.name = .D ∨ u.name = .E := by
      split
      case isTrue => intro u hu; exact of_upd .C acc u hacc (Or.inl rfl) hu
      case isFalse => exact hacc
    split at hs
    case isTrue => exact of_upd .D _ s hacc1 (Or.inr (Or.inl rfl)) hs
    case isFalse => exact hacc1 s hs
  case B =>
    split at hs
    case isTrue => exact of_upd .C acc s hacc (Or.inl rfl) hs
    case isFalse => exact hacc s hs
  case C =>
    split at hs
    case isTrue => exact of_upd .E acc s hacc (Or.inr (Or.inr rfl)) hs
    case isFalse => exact hacc s hs
  case D =>
    split at hs
    case isTrue => exact of_upd .E acc s hacc (Or.inr (Or.inr rfl)) hs
    case isFalse => exact hacc s hs
  case E => exact hacc s hs

lemma mem_machine_fold_name {c : ℚ × ℚ} {r : ℚ} :
    ∀ (l acc : List RState), (∀ s ∈ acc, s.name = .C ∨ s.name = .D ∨ s.name = .E) →
      ∀ s ∈ l.foldl (fun a st => machine_step a st c r) acc,
        s.name = .C ∨ s.name = .D ∨ s.name = .E := by
  intro l
  induction l with
  | nil => intro acc hacc s hs; exact hacc s hs
  | cons t rest ih =>
    intro acc hacc s hs
    rw [List.foldl_cons] at hs
    exact ih (machine_step acc t c r) (mem_machine_step_name hacc) s hs

lemma set_add_not_present {st : RState} {l : List RState}
    (h : ∀ s ∈ l, state_key_eq st s = false) : set_add st l = l ++ [st] := by
  unfold set_add
  have hany : l.any (state_key_eq st) = false := by
    rw [List.any_eq_false]
    intro x hx
    rw [h x hx]
    exact Bool.false_ne_true
  rw [hany]
  simp

/-- C10: after every `state_machine` step at buffer index `i` with sample
`((u,v), r)` the region's state set contains the fresh start state of
origin `i` with checker exactly `[(u,v)]` — named `B` when `r ≥ 0.8`, `A`
otherwise, never both at that index — and the state set is nonempty.
(The fold over the previous states only produces states named `C`, `D` or
`E`, so the start state inserted by `add_start_state` is always new.) -/
theorem state_machine_seeds_start_state (states : List RState) (c : ℚ × ℚ) (r : ℚ) (i : ℕ) :
    ((MAX_RED_PERCENTAGE ≤ r →
        (⟨.B, i, [c]⟩ : RState) ∈ state_machine states c r i ∧
          ∀ s ∈ state_machine states c r i, ¬(s.name = .A ∧ s.idx = i)) ∧
      (r < MAX_RED_PERCENTAGE →
        (⟨.A, i, [c]⟩ : RState) ∈ state_machine states c r i ∧
          ∀ s ∈ state_machine states c r i, ¬(s.name = .B ∧ s.idx = i))) ∧
    state_machine states c r i ≠ [] := by
  have hch := mem_machine_fold_name states [] (by intro s hs; cases hs) (c := c) (r := r)
  have hkey : ∀ nm : StateName, nm = .A ∨ nm = .B →
      ∀ s ∈ states.foldl (fun a st => machine_step a st c r) [],
        state_key_eq ⟨nm, i, [c]⟩ s = false := by
    intro nm hnm s hs
    unfold state_key_eq
    rcases hch s hs with h1 | h1 | h1 <;> rcases hnm with h2 | h2 <;>
      simp [h1, h2]
  unfold state_machine add_start_state
  by_cases hr : MAX_RED_PERCENTAGE ≤ r
  · rw [if_pos hr, set_add_not_present (hkey .B (Or.inr rfl))]
    refine ⟨⟨fun _ => ⟨List.mem_append_right _ (List.mem_singleton_self _), ?_⟩,
      fun h => absurd hr (not_le.2 h)⟩, by simp⟩
    intro s hs hcontra
    rcases List.mem_append.1 hs with h1 | h1
    · rcases hch s h1 with h2 | h2 | h2 <;> rw [hcontra.1] at h2 <;> cases h2
    · rw [List.mem_singleton.1 h1] at hcontra
      cases hcontra.1
  · rw [if_neg hr, set_add_not_present (hkey .A (Or.inl rfl))]
    refine ⟨⟨fun h => absurd h hr, fun _ =>
      ⟨List.mem_append_right _ (List.mem_singleton_self _), ?_⟩⟩, by simp⟩
    intro s hs hcontra
    rcases List.mem_append.1 hs with h1 | h1
    · rcases hch s h1 with h2 | h2 | h2 <;> rw [hcontra.1] at h2 <;> cases h2
    · rw [List.mem_singleton.1 h1] at hcontra
      cases hcontra.1

/-- Witness for C10 at a concrete input: an empty region receiving a
saturated-red sample at buffer index 5. -/
theorem state_machine_seeds_start_state_witness :
    (⟨.B, 5, [(0, 0)]⟩ : RState) ∈ state_machine [] (0, 0) 1 5 ∧
      state_machine [] (0, 0) 1 5 ≠ [] :=
  ⟨((state_machine_seeds_start_state [] (0, 0) 1 5).1.1 (by norm_num [MAX_RED_PERCENTAGE])).1,
    (state_machine_seeds_start_state [] (0, 0) 1 5).2⟩

lemma getD_range_map {α : Type} {n i : ℕ} (f : ℕ → α) (d : α) (hi : i < n) :
    ((List.range n).map f).getD i d = f i := by
  rw [List.getD_eq_getElem?_getD, List.getElem?_map, List.getElem?_range hi]
  rfl

lemma flash_idx_ne_neg_one_iff (l : List RState) :
    flash_idx l ≠ -1 ↔ ∃ s ∈ l, s.name = .E := by
  unfold flash_idx
  cases hf : l.find? (fun s => decide (s.name = .E)) with
  | none =>
    simp only [ne_eq, not_true_eq_false, false_iff, not_exists]
    intro s hs
    obtain ⟨hmem, hname⟩ := hs
    have := List.find?_eq_none.1 hf s hmem
    simp [hname] at this
  | some s =>
    have hmem := List.mem_of_find?_eq_some hf
    have hname := List.find?_some hf
    simp only [decide_eq_true_eq] at hname
    have hne : (s.idx : ℤ) ≠ -1 := by omega
    exact ⟨fun _ => ⟨s, hmem, hname⟩, fun _ => hne⟩

/-- C8: the timestamps appended by `add_frame` are exactly the pairs
`(i / frame_rate, j / frame_rate)` of the grid positions whose state set
contains a state named `E` after the FSM step; a region with no `E` state
appends nothing.  (`flash_idx` returns a natural index, so it equals `-1`
precisely when no `E` state exists.) -/
theorem add_frame_timestamps_iff_reached_E (b : RBuffer) (frame : List (List (ℚ × ℚ × ℚ))) :
    (add_frame b frame).red_flash_timestamps = b.red_flash_timestamps ++
      (List.range b.n).flatMap (fun i => (List.range b.n).flatMap (fun j =>
        if ∃ s ∈ step_states b frame i j, s.name = .E then
          [((i : ℚ) / b.frame_rate, (j : ℚ) / b.frame_rate)]
        else [])) := by
  unfold add_frame
  simp only [flash_idx_ne_neg_one_iff]

/-- C5 (amended): let `i = b.idx + 1` be the number of admitted frames
after the admission.  Eviction fires as soon as `i ≥ num_frames` — not
only when `i > num_frames` — and removes exactly the states with
`origin_idx = i - num_frames` — not `i - num_frames - 1`.  A state
survives the admission iff it survives the FSM step and either the window
is not yet full or its origin index differs from `i - num_frames`. -/
theorem add_frame_eviction_characterization (b : RBuffer) (frame : List (List (ℚ × ℚ × ℚ)))
    (i j : ℕ) (hi : i < b.n) (hj : j < b.n) (s : RState) :
    s ∈ region_states_at (add_frame b frame) i j ↔
      s ∈ step_states b frame i j ∧
        (b.idx + 1 < b.num_frames ∨ (s.idx : ℤ) ≠ (b.idx : ℤ) + 1 - (b.num_frames : ℤ)) := by
  unfold add_frame region_states_at
  simp only
  by_cases hout : 0 ≤ ((b.idx + 1 : ℕ) : ℤ) - (b.num_frames : ℤ)
  · rw [if_pos hout]
    unfold remove_frame
    rw [List.map_map, getD_range_map _ _ hi]
    simp only [Function.comp_apply]
    rw [List.map_map, getD_range_map _ _ hj]
    simp only [Function.comp_apply, List.mem_filter, bne_iff_ne, ne_eq, decide_not]
    constructor
    · rintro ⟨h1, h2⟩
      exact ⟨h1, Or.inr (by push_cast at h2 ⊢; omega)⟩
    · rintro ⟨h1, h2 | h2⟩
      · exfalso; omega
      · exact ⟨h1, by push_cast at h2 ⊢; omega⟩
  · rw [if_neg hout]
    rw [getD_range_map _ _ hi, getD_range_map _ _ hj]
    constructor
    · intro h1; exact ⟨h1, Or.inl (by omega)⟩
    · rintro ⟨h1, -⟩; exact h1

/-- Counterexample to C5 as stated: with window capacity `W = 2`, admitting
the second frame (so the admitted count is `i = 2`, not `> W`) evicts the
freshly created transition states of origin `0 = i - W` — an origin larger
than `i - W - 1 = -1`.  The FSM step for the second frame produces the
state `C` with origin 0, yet after the admission only the start state
`B` of origin 1 remains. -/
theorem add_frame_evicts_in_window_state :
    (⟨.C, 0, [(1, 1)]⟩ : RState) ∈
        step_states (add_frame two_frame_buffer frame_far_a) frame_far_b 0 0 ∧
      region_states_at (add_frame (add_frame two_frame_buffer frame_far_a) frame_far_b) 0 0 =
        [⟨.B, 1, [(1, 1)]⟩] := by
  exact ⟨by decide, by decide⟩

/-- Witness for C5 (amended) at a concrete input: the first admission into
the capacity-2 buffer evicts nothing, so the start state of origin 0 is
present afterwards. -/
theorem add_frame_eviction_characterization_witness :
    (⟨.A, 0, [(0, 0)]⟩ : RState) ∈ region_states_at (add_frame two_frame_buffer frame_far_a) 0 0 :=
  (add_frame_eviction_characterization two_frame_buffer frame_far_a 0 0 (by decide) (by decide)
    ⟨.A, 0, [(0, 0)]⟩).2 ⟨by decide, Or.inl (by decide)⟩

/-- C4 (amended): the window size is `int(frame_rate * speed)`, i.e. the
floor, not the round: it equals `round(frame_rate * speed)` exactly when
the fractional part of `frame_rate * speed` is below `1/2`, and is one
less otherwise. -/
theorem frames_per_second_is_floor (frame_rate : ℕ) (speed : ℚ) (hsp : 0 ≤ speed) :
    (frames_per_second frame_rate speed : ℤ) =
      if Int.fract ((frame_rate : ℚ) * speed) < 1/2 then round ((frame_rate : ℚ) * speed)
      else round ((frame_rate : ℚ) * speed) - 1 := by
  set x : ℚ := (frame_rate : ℚ) * speed with hx
  have hx0 : 0 ≤ x := mul_nonneg (Nat.cast_nonneg _) hsp
  have hfl : (frames_per_second frame_rate speed : ℤ) = ⌊x⌋ := by
    unfold frames_per_second
    rw [← hx, Int.toNat_of_nonneg (Int.floor_nonneg.2 hx0)]
  have hsplit : x + 1/2 = (⌊x⌋ : ℚ) + (Int.fract x + 1/2) := by
    have := Int.floor_add_fract x
    linarith
  have hfr0 : 0 ≤ Int.fract x := Int.fract_nonneg x
  have hfr1 : Int.fract x < 1 := Int.fract_lt_one x
  rw [hfl, round_eq, hsplit, Int.floor_int_add]
  by_cases hlt : Int.fract x < 1/2
  · rw [if_pos hlt]
    have h0 : ⌊Int.fract x + 1/2⌋ = 0 := by
      rw [Int.floor_eq_zero_iff]
      constructor
      · linarith
      · simpa using by linarith
    omega
  · rw [if_neg hlt]
    have h1 : ⌊Int.fract x + 1/2⌋ = 1 := by
      rw [Int.floor_eq_iff]
      push_cast
      constructor
      · linarith [not_lt.1 hlt]
      · linarith
    omega

/-- Witness for C4 (amended) at `frame_rate = 30`, `speed = 1/4`. -/
theorem frames_per_second_is_floor_witness :
    (frames_per_second 30 (1/4) : ℤ) =
      if Int.fract ((30 : ℚ) * (1/4)) < 1/2 then round ((30 : ℚ) * (1/4))
      else round ((30 : ℚ) * (1/4)) - 1 :=
  frames_per_second_is_floor 30 (1/4) (by norm_num)

/-- Counterexample to C4 as stated: at `fps = 30` and the valid speed
`1/4`, the window size is `int(30 * 0.25) = 7`, while `round(30 * 0.25)
= 8`. -/
theorem frames_per_second_differs_from_round :
    (frames_per_second 30 (1/4) : ℤ) ≠ round ((30 : ℚ) * (1/4)) ∧
      (1/5 : ℚ) ≤ 1/4 ∧ (1/4 : ℚ) ≤ 5 := by
  refine ⟨?_, by norm_num, by norm_num⟩
  have h1 : frames_per_second 30 (1/4) = 7 := by decide
  have h2 : round ((30 : ℚ) * (1/4)) = 8 := by
    rw [round_eq]
    norm_num
  rw [h1, h2]
  decide

/-- C6: `detect_flashes` validates `speed` before any frame is read: for
`speed > 5` or `speed < 0.2` it fails with the invalid-argument error for
every frame source (in particular without consuming a frame), and for
every speed in `[0.2, 5]` — boundaries included — it does not raise it. -/
theorem detect_flashes_speed_validation (frame_rate : ℕ) (speed : ℚ) (flashes : ℕ → ℚ)
    (n : ℕ) :
    ((5 < speed ∨ speed < 1/5) →
        detect_flashes frame_rate speed flashes n =
          Except.error "speed must not exceed 5x and must be positive") ∧
      (1/5 ≤ speed → speed ≤ 5 →
        ∃ l, detect_flashes frame_rate speed flashes n = Except.ok l) := by
  constructor
  · intro h
    unfold detect_flashes
    rw [if_pos h]
  · intro h1 h2
    unfold detect_flashes
    rw [if_neg ?_]
    · exact ⟨_, rfl⟩
    · rintro (h | h) <;> linarith

/-- Witness for C6: `speed = 6` errors before any frame; the boundary
speeds `0.2` and `5` are accepted. -/
theorem detect_flashes_speed_validation_witness :
    detect_flashes 30 6 (fun _ => 0) 5 =
        Except.error "speed must not exceed 5x and must be positive" ∧
      (∃ l, detect_flashes 30 (1/5) (fun _ => 0) 3 = Except.ok l) ∧
      ∃ l, detect_flashes 30 5 (fun _ => 0) 3 = Except.ok l :=
  ⟨(detect_flashes_speed_validation 30 6 (fun _ => 0) 5).1 (by norm_num),
    (detect_flashes_speed_validation 30 (1/5) (fun _ => 0) 3).2 (by norm_num) (by norm_num),
    (detect_flashes_speed_validation 30 5 (fun _ => 0) 3).2 (by norm_num) (by norm_num)⟩

lemma mem_of_mem_getLast {α : Type} {l : List α} {x : α} (h : x ∈ l.getLast?) : x ∈ l := by
  obtain ⟨h1, rfl⟩ := List.mem_getLast?_eq_getLast h
  exact List.getLast_mem h1

lemma merge_timestamps_head :
    ∀ (n : ℕ) (l : List (ℚ × ℚ)) (a : ℚ × ℚ), l.length ≤ n →
      ∃ p rest, merge_timestamps (a :: l) = p :: rest ∧ p.1 = a.1 := by
  intro n
  induction n with
  | zero =>
    intro l a hl
    rw [List.length_eq_zero.1 (Nat.le_zero.1 hl)]
    exact ⟨a, [], by rw [merge_timestamps], rfl⟩
  | succ n ih =>
    intro l a hl
    match l with
    | [] => exact ⟨a, [], by rw [merge_timestamps], rfl⟩
    | b :: rest =>
      simp only [merge_timestamps]
      split
      case isTrue h =>
        have hlen : rest.length ≤ n := by simp at hl; omega
        exact ih rest (a.1, b.2) hlen
      case isFalse h =>
        exact ⟨a, merge_timestamps (b :: rest), rfl, rfl⟩

lemma merge_timestamps_chain :
    ∀ (n : ℕ) (l : List (ℚ × ℚ)), l.length ≤ n →
      l.Chain' (fun a b => a.2 < b.1) →
      (merge_timestamps l).Chain' (fun a b => a.2 + 3 ≤ b.1) := by
  intro n
  induction n with
  | zero =>
    intro l hl _
    rw [List.length_eq_zero.1 (Nat.le_zero.1 hl)]
    simp [merge_timestamps]
  | succ n ih =>
    intro l hl hch
    match l with
    | [] => simp [merge_timestamps]
    | [a] => simp [merge_timestamps]
    | a :: b :: rest =>
      simp only [merge_timestamps]
      rw [List.chain'_cons'] at hch
      obtain ⟨hab, hch2⟩ := hch
      have hab' : a.2 < b.1 := hab b rfl
      split
      case isTrue h =>
        apply ih _ (by simp at hl ⊢; omega)
        rw [List.chain'_cons']
        rw [List.chain'_cons'] at hch2
        exact ⟨hch2.1, hch2.2⟩
      case isFalse h =>
        have h3 : a.2 + 3 ≤ b.1 := by
          have habs : |a.2 - b.1| = b.1 - a.2 := by
            rw [abs_of_neg (by linarith)]
            ring
          rw [habs] at h
          linarith [not_lt.1 h]
        rw [List.chain'_cons']
        constructor
        · intro y hy
          obtain ⟨p, r', hpr, hp1⟩ := merge_timestamps_head n rest b
            (by simp at hl ⊢; omega)
          rw [hpr] at hy
          have hyp : p = y := by simpa using hy
          rw [← hyp, hp1]
          exact h3
        · exact ih (b :: rest) (by simp at hl ⊢; omega) hch2

lemma orch_inv_mono {frame_rate k : ℕ} {s : OrchState} (h : orch_inv frame_rate k s) :
    orch_inv frame_rate (k + 1) s := by
  obtain ⟨h1, h2, h3⟩ := h
  refine ⟨h1, fun t ht => ?_, h3⟩
  obtain ⟨c, hc, hct⟩ := h2 t ht
  exact ⟨c, Nat.lt_succ_of_lt hc, hct⟩

lemma detect_flashes_step_inv {frame_rate window : ℕ} {flashes : ℕ → ℚ} {k : ℕ}
    {s : OrchState} (hfr : 0 < frame_rate) (h : orch_inv frame_rate k s) :
    orch_inv frame_rate (k + 1) (detect_flashes_step frame_rate window flashes s k) := by
  obtain ⟨h1, h2, h3⟩ := h
  have hfrq : (0 : ℚ) < (frame_rate : ℚ) := by exact_mod_cast hfr
  unfold detect_flashes_step
  by_cases hbl : min (s.buffer_len + 1) window = window
  swap
  · rw [if_neg hbl]
    exact orch_inv_mono ⟨h1, h2, h3⟩
  rw [if_pos hbl]
  simp only
  by_cases hopen : hertz ≤ flashes k ∧ s.start_danger = -1
  · -- the danger interval opens at frame k; it cannot close in the same step
    rw [if_pos hopen]
    have hnoclose : ¬(flashes k < hertz ∧ 0 ≤ (k : ℤ)) := by
      rintro ⟨hlt, -⟩
      exact absurd hopen.1 (not_le.2 hlt)
    rw [if_neg hnoclose, if_neg hnoclose]
    refine ⟨h1, fun t ht => ?_, Or.inr ⟨k, rfl, fun t ht => ?_⟩⟩
    · obtain ⟨c, hc, hct⟩ := h2 t ht
      exact ⟨c, Nat.lt_succ_of_lt hc, hct⟩
    · obtain ⟨c, hc, hct⟩ := h2 t ht
      rw [hct]
      have hck : (c : ℚ) ≤ (k : ℚ) := by exact_mod_cast hc.le
      have hle : (c : ℚ) / (frame_rate : ℚ) ≤ (k : ℚ) / (frame_rate : ℚ) :=
        div_le_div_of_nonneg_right hck hfrq.le
      linarith
  · rw [if_neg hopen]
    by_cases hclose : flashes k < hertz ∧ 0 ≤ s.start_danger
    · rw [if_pos hclose, if_pos hclose]
      -- the interval [2 + m/fr, k/fr] closes; `m` comes from the invariant
      rcases h3 with hneg | ⟨m, hm, hbound⟩
      · rw [hneg] at hclose
        exact absurd hclose.2 (by norm_num)
      refine ⟨?_, ?_, Or.inl rfl⟩
      · rw [List.chain'_append]
        refine ⟨h1, List.chain'_singleton _, fun x hx y hy => ?_⟩
        have hxy : ((skip_enabled : ℚ) * 2 + ((s.start_danger : ℚ)) / (frame_rate : ℚ),
            (k : ℚ) / (frame_rate : ℚ)) = y := by simpa using hy
        have hx' : x ∈ s.timestamps := mem_of_mem_getLast hx
        rw [← hxy]
        have := hbound x hx'
        have hsd : ((s.start_danger : ℚ)) = (m : ℚ) := by rw [hm]; push_cast; rfl
        simp only [skip_enabled, Nat.cast_one, one_mul]
        rw [hsd]
        exact this
      · intro t ht
        rcases List.mem_append.1 ht with h4 | h4
        · obtain ⟨c, hc, hct⟩ := h2 t h4
          exact ⟨c, Nat.lt_succ_of_lt hc, hct⟩
        · refine ⟨k, Nat.lt_succ_self k, ?_⟩
          rw [List.mem_singleton.1 h4]
    · rw [if_neg hclose, if_neg hclose]
      refine ⟨h1, fun t ht => ?_, h3⟩
      obtain ⟨c, hc, hct⟩ := h2 t ht
      exact ⟨c, Nat.lt_succ_of_lt hc, hct⟩

lemma detect_flashes_fold_inv (frame_rate window : ℕ) (flashes : ℕ → ℚ)
    (hfr : 0 < frame_rate) (n : ℕ) :
    orch_inv frame_rate n
      ((List.range n).foldl (detect_flashes_step frame_rate window flashes) ⟨0, -1, []⟩) := by
  induction n with
  | zero =>
    refine ⟨List.chain'_nil, fun t ht => absurd ht (List.not_mem_nil t), Or.inl rfl⟩
  | succ n ih =>
    rw [List.range_succ, List.foldl_append, List.foldl_cons, List.foldl_nil]
    exact detect_flashes_step_inv hfr ih

/-- C3 (amended): for every frame source, frame rate and speed, the list
returned by `detect_flashes` is ordered with pairwise gaps of at least 3
seconds: consecutive intervals satisfy `end + 3 ≤ next start` (hence
`end ≤ next start` and non-overlap).  The claim's additional conjunct
"every interval satisfies `start ≤ end`" is false on the code — the close
formula adds `skip_enabled * 2` seconds to the start only — see the
counterexample. -/
theorem detect_flashes_intervals_ordered (frame_rate : ℕ) (speed : ℚ) (flashes : ℕ → ℚ)
    (n : ℕ) (l : List (ℚ × ℚ)) (hfr : 0 < frame_rate)
    (h : detect_flashes frame_rate speed flashes n = Except.ok l) :
    l.Chain' (fun a b => a.2 + 3 ≤ b.1) := by
  unfold detect_flashes at h
  split at h
  case isTrue => cases h
  case isFalse =>
    rw [Except.ok.injEq] at h
    have hinv := detect_flashes_fold_inv frame_rate (frames_per_second frame_rate speed)
      flashes hfr n
    rw [← h]
    exact merge_timestamps_chain _ _ le_rfl hinv.1

/-- Counterexample to C3 as stated: at 30 fps, speed 1, with a danger
burst detected only in the window closing at frame 29 (a burst shorter
than 2 seconds), the returned interval is `[2 + 29/30, 1]` — its start
`89/30 ≈ 2.97` exceeds its end `1`, because the close formula adds
`skip_enabled * 2` to the start only. -/
theorem detect_flashes_interval_start_after_end :
    detect_flashes 30 1 burst_oracle 31 = Except.ok [(89/30, 1)] ∧ (1 : ℚ) < 89/30 := by
  constructor
  · have hfold : (List.range 31).foldl
        (detect_flashes_step 30 (frames_per_second 30 1) burst_oracle) ⟨0, -1, []⟩ =
        (⟨0, -1, [(89/30, 1)]⟩ : OrchState) := by decide
    unfold detect_flashes
    rw [if_neg (by norm_num)]
    show Except.ok (merge_timestamps ((List.range 31).foldl
        (detect_flashes_step 30 (frames_per_second 30 1) burst_oracle)
        ⟨0, -1, []⟩).timestamps) = Except.ok [(89/30, 1)]
    rw [hfold]
    show Except.ok (merge_timestamps [(89/30, 1)]) = Except.ok [(89/30, 1)]
    rw [merge_timestamps]
  · norm_num

/-- Witness for C3 (amended): the empty stream yields the empty interval
list, which trivially satisfies the ordering. -/
theorem detect_flashes_intervals_ordered_witness :
    List.Chain' (fun a b : ℚ × ℚ => a.2 + 3 ≤ b.1) [] :=
  detect_flashes_intervals_ordered 1 1 (fun _ => 0) 0 [] (by norm_num)
    (by unfold detect_flashes
        rw [if_neg (by norm_num)]
        show Except.ok (merge_timestamps []) = Except.ok []
        rw [merge_timestamps])

lemma calc_viewport_double_inputs (res_h res_w : ℕ)
    (screen_size view_distance viewport_angle : ℝ) :
    calc_viewport_square_px (2 * res_h) (2 * res_w) (2 * screen_size)
        view_distance viewport_angle =
      calc_viewport_square_px res_h res_w screen_size view_distance viewport_angle := by
  simp only [calc_viewport_square_px]
  rw [Nat.gcd_mul_left 2 res_h res_w,
    Nat.mul_div_mul_left res_h (Nat.gcd res_h res_w) (by norm_num),
    Nat.mul_div_mul_left res_w (Nat.gcd res_h res_w) (by norm_num)]
  congr 1
  have hcast : ((2 * res_h : ℕ) : ℝ) = 2 * (res_h : ℝ) := by push_cast; ring
  rw [hcast]
  have hre : ∀ a s : ℝ, a * (2 * s) = 2 * (a * s) := fun a s => by ring
  rw [hre, mul_div_mul_left _ _ (two_ne_zero)]

/-- C9 (amended): doubling the screen resolution together with the
physical diagonal leaves the square-viewport pixel side *unchanged* —
the pixel density and the viewport's physical size are both invariant —
rather than doubling it as the claim states. -/
theorem calc_viewport_square_px_doubling_invariant (res_h res_w : ℕ)
    (screen_size view_distance viewport_angle : ℝ) :
    calc_viewport_square_px (2 * res_h) (2 * res_w) (2 * screen_size)
        view_distance viewport_angle =
      calc_viewport_square_px res_h res_w screen_size view_distance viewport_angle :=
  calc_viewport_double_inputs res_h res_w screen_size view_distance viewport_angle

/-- Counterexample to C9 as stated: at the source's default geometry
(100 × 100 pixels, 15 in diagonal, 26 in viewing distance, 10° angle),
the doubled inputs give the *same* pixel side, which is positive, so it
cannot equal twice itself. -/
theorem calc_viewport_square_px_not_doubled :
    ¬(calc_viewport_square_px (2 * 100) (2 * 100) (2 * (15 * 2.54)) (26 * 2.54) 10 =
        2 * calc_viewport_square_px 100 100 (15 * 2.54) (26 * 2.54) 10) := by
  rw [calc_viewport_double_inputs]
  have hpos : 0 < calc_viewport_square_px 100 100 (15 * 2.54) (26 * 2.54) 10 := by
    simp only [calc_viewport_square_px, viewport_radius]
    rw [Int.ceil_pos]
    have hpi := Real.pi_pos
    have htan : 0 < Real.tan (10 * Real.pi / 180) :=
      Real.tan_pos_of_pos_of_lt_pi_div_two (by positivity) (by nlinarith)
    have hg : Nat.gcd 100 100 = 100 := Nat.gcd_self 100
    rw [hg]
    norm_num
    positivity
  omega
